import Mathlib

/-!
Verification of the hanzo crate publishing scripts.

This file gives a shallow embedding of the manifest resolution and
ordered publish orchestration logic of the repository:

- publish-hanzo-improved.py     (structured toml transform, modeled in full)
- publish-hanzo-automated.py    (regex based transform with a live registry)
- publish-all-hanzo-crates.py   (plain text replacement, no backup)

Python dictionaries are modeled as association lists with first key
semantics; command invocations, file reads and the publish step are
modeled through explicit outcome oracles, since they are external
collaborators of the core.  The theorems at the end of the file settle
the frozen claims C1 to C10.
-/

namespace HanzoPub

/-! ## Generic string and association list helpers.

String primitives are implemented over character lists by structural
recursion so that closed instances evaluate inside the kernel.  They
model the Python operations used by the scripts: substring test (the
in operator), str.lower, str.startswith and str.replace. -/

/-- True when the second list starts with the first list. -/
def headMatches : List Char → List Char → Bool
  | [], _ => true
  | _ :: _, [] => false
  | a :: as, b :: bs => a == b && headMatches as bs

/-- True when pat occurs as a contiguous sublist. -/
def hasSub (pat : List Char) : List Char → Bool
  | [] => pat.isEmpty
  | c :: rest => headMatches pat (c :: rest) || hasSub pat rest

/-- Models the Python expression pat in s. -/
def containsSub (s pat : String) : Bool :=
  hasSub pat.toList s.toList

/-- Models the Python method str.lower, adequate for the ASCII text used here. -/
def lowerStr (s : String) : String :=
  String.mk (s.toList.map Char.toLower)

/-- Models the Python method s.startswith(pre). -/
def strStartsWith (s pre : String) : Bool :=
  headMatches pre.toList s.toList

/-- Fuel indexed worker for stringReplace; the fuel is the input length,
which suffices because every step consumes at least one character for a
nonempty pattern. -/
def replCharsFuel (pat repl : List Char) : Nat → List Char → List Char
  | 0, l => l
  | _ + 1, [] => []
  | n + 1, c :: rest =>
    if headMatches pat (c :: rest) && !pat.isEmpty then
      repl ++ replCharsFuel pat repl n ((c :: rest).drop pat.length)
    else
      c :: replCharsFuel pat repl n rest

/-- Models the Python method s.replace(pat, repl): replace all non
overlapping occurrences, left to right. -/
def stringReplace (s pat repl : String) : String :=
  String.mk (replCharsFuel pat.toList repl.toList s.toList.length s.toList)

/-- Association list lookup with first key wins semantics, modeling a
Python dict read. -/
def alookup {α : Type} (k : String) : List (String × α) → Option α
  | [] => none
  | (k', v) :: rest => if k' = k then some v else alookup k rest

/-- Association list write, modeling a Python dict assignment: replace
the first binding of the key, or append a new binding at the end. -/
def setA {α : Type} (k : String) (v : α) : List (String × α) → List (String × α)
  | [] => [(k, v)]
  | (k', v') :: rest => if k' = k then (k, v) :: rest else (k', v') :: setA k v rest

/-- Apply a function to the value of the first binding of a key, if any;
modeling a read modify write of one Python dict entry. -/
def updateFirst {α : Type} (k : String) (f : α → α) : List (String × α) → List (String × α)
  | [] => []
  | (k', v) :: rest => if k' = k then (k', f v) :: rest else (k', v) :: updateFirst k f rest

/-! ## The command runner.

All three scripts define the same helper (run_command in
publish-hanzo-improved.py and publish-all-hanzo-crates.py, run_cmd in
publish-hanzo-automated.py): run a shell command, return the pair of a
success flag (returncode equal to zero) and the concatenated stdout and
stderr, and convert any raised exception into the pair of False and the
exception message.  The external world is an oracle value of type
CmdOutcome. -/

/-- What the external command invocation did: either subprocess.run
returned a completed process, or an exception was raised while spawning
or running the command. -/
inductive CmdOutcome where
  | completed (returncode : Int) (stdout stderr : String)
  | raised (msg : String)
deriving DecidableEq

/-- Result of a Python call: a normal return or a propagating exception. -/
inductive PyResult (α : Type) where
  | ok (val : α)
  | exc (msg : String)
deriving DecidableEq

deriving instance DecidableEq for Except

/-- Embedding of run_command / run_cmd. The try block maps a completed
process to (returncode == 0, stdout + stderr); the except clause maps a
raised exception to (False, str(e)).  The PyResult codomain records that
the function returns normally in both cases. -/
def run_command : CmdOutcome → PyResult (Bool × String)
  | .completed rc out err => .ok (decide (rc = 0), out ++ err)
  | .raised msg => .ok (false, msg)

/-- Convenience projection of run_command; by theorem c10_total the exc
arm is unreachable. -/
def run_command_pair (o : CmdOutcome) : Bool × String :=
  match run_command o with
  | .ok p => p
  | .exc msg => (false, msg)

/-! ## Data model of a parsed manifest (publish-hanzo-improved.py).

The improved script parses Cargo.toml with toml.loads and rewrites the
resulting dictionary.  The embedding keeps the parts of that dictionary
the script inspects: the package metadata table, flat dependency
sections, top level dotted dependency keys of the two shapes the script
folds (dependencies.NAME and dev-dependencies.NAME), the presence of a
workspace table, and inert extra keys. -/

/-- A dependency table value. workspace, version and features model the
keys of the same names; extra holds any further sub fields (for example
optional or default-features) as uninterpreted key value text, which the
script never inspects but can drop on replacement. -/
structure DepTable where
  workspace : Option Bool
  version : Option String
  features : Option (List String)
  extra : List (String × String)
deriving DecidableEq

/-- A dependency entry value: a bare version string or a table. -/
inductive DepVal where
  | str (s : String)
  | table (t : DepTable)
deriving DecidableEq

/-- One dependency section, a dict from name to value. -/
abbrev DepSection := List (String × DepVal)

/-- A package metadata value: a string, an array of strings, or a table
whose workspace key is tracked. -/
inductive MetaVal where
  | str (s : String)
  | arr (xs : List String)
  | table (workspace : Option Bool)
deriving DecidableEq

/-- The package table. The six fields of the metadata loop are tracked,
plus description (the script treats it by truthiness; string valued
descriptions are modeled) and inert extra keys. -/
structure PackageMeta where
  version : Option MetaVal
  edition : Option MetaVal
  authors : Option MetaVal
  license : Option MetaVal
  repository : Option MetaVal
  homepage : Option MetaVal
  description : Option String
  extra : List (String × String)
deriving DecidableEq

/-- Which section a top level dotted key addresses; the script folds
only keys starting with dependencies. or dev-dependencies. and leaves
every other top level key untouched. -/
inductive DottedSect where
  | dep
  | dev
deriving DecidableEq

/-- A top level dotted dependency key, for example dependencies.serde. -/
structure DottedEntry where
  sect : DottedSect
  name : String
  value : DepVal
deriving DecidableEq

/-- The parsed manifest dictionary. -/
structure TomlData where
  package : Option PackageMeta
  workspace : Bool
  dotted : List DottedEntry
  dependencies : Option DepSection
  devDependencies : Option DepSection
  buildDependencies : Option DepSection
  extra : List (String × String)
deriving DecidableEq

/-! ## The version table of publish-hanzo-improved.py. -/

/-- DEPENDENCY_VERSIONS of publish-hanzo-improved.py, transcribed. -/
def DEPENDENCY_VERSIONS : List (String × String) :=
  [("tokio", "1.36"),
   ("serde", "1.0.219"),
   ("serde_json", "1.0.117"),
   ("chrono", "0.4"),
   ("reqwest", "0.11.27"),
   ("log", "0.4.20"),
   ("async-trait", "0.1.81"),
   ("futures", "0.3.30"),
   ("anyhow", "1.0.86"),
   ("dashmap", "6.0"),
   ("ed25519-dalek", "2.1.1"),
   ("x25519-dalek", "2.0.1"),
   ("base64", "0.22.0"),
   ("rusqlite", "0.31.0"),
   ("dirs", "5.0"),
   ("clap", "4.5.4"),
   ("home", "0.5.5"),
   ("keyphrases", "0.3.2"),
   ("utoipa", "4.2"),
   ("nalgebra", "0.32"),
   ("tracing", "0.1.40"),
   ("lazy_static", "1.4.0"),
   ("once_cell", "1.19"),
   ("regex", "1"),
   ("rmcp", "0.6"),
   ("bincode", "1.3.3"),
   ("uuid", "1.8.0"),
   ("csv", "1.3")]

/-- The version substituted for an inherited dependency: the table
entry if known, the workspace default version 1.1.10 for names with the
hanzo_ namespace, and the conservative default 1.0 otherwise.  Both
fix_dependencies_table_syntax and fix_inline_tables duplicate this
lookup chain in the source. -/
def depLookupVersion (name : String) : String :=
  match alookup name DEPENDENCY_VERSIONS with
  | some v => v
  | none => if strStartsWith name "hanzo_" then "1.1.10" else "1.0"

/-! ## The resolver passes of publish-hanzo-improved.py. -/

/-- The elif chain of fix_inline_tables that appends required features
for specific crates, when not already present. -/
def mandatoryAppend (name : String) (fs : List String) : List String :=
  if name = "chrono" then (if "serde" ∈ fs then fs else fs ++ ["serde"])
  else if name = "reqwest" then (if "json" ∈ fs then fs else fs ++ ["json"])
  else if name = "nalgebra" then
    (if "serde-serialize" ∈ fs then fs else fs ++ ["serde-serialize"])
  else fs

/-- Per entry body of fix_inline_tables.  A table with workspace = true
is replaced by a fresh table holding the looked up version and the
preserved plus mandatory features (the features key is present exactly
when the list is nonempty); note that any other sub fields of the old
table are not carried over.  An empty version string is replaced by the
table version or 1.0.  Everything else is left untouched. -/
def fixInlineDep (name : String) : DepVal → DepVal
  | .table t =>
    if t.workspace = some true then
      let fs := mandatoryAppend name (t.features.getD [])
      .table { workspace := none
               version := some (depLookupVersion name)
               features := if fs.isEmpty then none else some fs
               extra := [] }
    else .table t
  | .str s =>
    if s = "" then
      .str (match alookup name DEPENDENCY_VERSIONS with
            | some v => v
            | none => "1.0")
    else .str s

/-- fix_inline_tables on one section. -/
def fixInlineSection (l : DepSection) : DepSection :=
  l.map fun p => (p.1, fixInlineDep p.1 p.2)

/-- fix_inline_tables: applied to the dependencies, dev-dependencies and
build-dependencies sections when present. -/
def fix_inline_tables (d : TomlData) : TomlData :=
  { d with dependencies := d.dependencies.map fixInlineSection
           devDependencies := d.devDependencies.map fixInlineSection
           buildDependencies := d.buildDependencies.map fixInlineSection }

/-- Conversion applied by fix_dependencies_table_syntax to a dotted key
value before folding it into its section: an inherited table is replaced
by a fresh explicit table (version from the lookup chain, features set,
not unioned, for chrono, reqwest and nalgebra); any other value is moved
unchanged. -/
def dottedConvert (name : String) : DepVal → DepVal
  | .table t =>
    if t.workspace = some true then
      let base : DepTable :=
        { workspace := none, version := some (depLookupVersion name)
          features := none, extra := [] }
      let base :=
        if name = "chrono" then { base with features := some ["serde"] }
        else if name = "reqwest" then { base with features := some ["json"] }
        else if name = "nalgebra" then { base with features := some ["serde-serialize"] }
        else base
      .table base
    else .table t
  | v => v

/-- Fold one dotted key into its flat section, creating the section when
absent, as fix_dependencies_table_syntax does. -/
def insertDotted (e : DottedEntry) (d : TomlData) : TomlData :=
  match e.sect with
  | .dep =>
    { d with dependencies := some (setA e.name (dottedConvert e.name e.value) (d.dependencies.getD [])) }
  | .dev =>
    { d with devDependencies := some (setA e.name (dottedConvert e.name e.value) (d.devDependencies.getD [])) }

/-- Process the dotted keys in dictionary order. -/
def applyDotted : List DottedEntry → TomlData → TomlData
  | [], d => d
  | e :: es, d => applyDotted es (insertDotted e d)

/-- fix_dependencies_table_syntax: pop every dependencies.NAME and
dev-dependencies.NAME top level key and fold it into the flat section. -/
def fix_dependencies_table_syntax (d : TomlData) : TomlData :=
  applyDotted d.dotted { d with dotted := [] }

/-- The per value body of the reqwest fixing loop: a string becomes a
table with the json feature (defaulting an empty version to 0.11.27); a
table with a features list lacking json gets json appended in place; a
table without a features key is left untouched. -/
def fixReqwestVal : DepVal → DepVal
  | .str s =>
    .table { workspace := none
             version := some (if s = "" then "0.11.27" else s)
             features := some ["json"], extra := [] }
  | .table t =>
    match t.features with
    | some fs => if "json" ∈ fs then .table t else .table { t with features := some (fs ++ ["json"]) }
    | none => .table t

/-- Shared body of the chrono and nalgebra fixing loops, which are
textually duplicated in the source: a string becomes a table with the
mandatory feature (defaulting an empty version to dflt); a table without
a features key gets features = [feat]; a features list lacking feat gets
feat appended in place. -/
def featEnsureVal (dflt feat : String) : DepVal → DepVal
  | .str s =>
    .table { workspace := none
             version := some (if s = "" then dflt else s)
             features := some [feat], extra := [] }
  | .table t =>
    match t.features with
    | none => .table { t with features := some [feat] }
    | some fs => if feat ∈ fs then .table t else .table { t with features := some (fs ++ [feat]) }

/-- The per value body of the chrono fixing loop. -/
def fixChronoVal : DepVal → DepVal := featEnsureVal "0.4" "serde"

/-- The per value body of the nalgebra fixing loop. -/
def fixNalgebraVal : DepVal → DepVal := featEnsureVal "0.32" "serde-serialize"

/-- Apply a per value fix to the entry of one name in an optional
section, when the section and the entry exist. -/
def fixSectionOpt (name : String) (f : DepVal → DepVal) :
    Option DepSection → Option DepSection
  | none => none
  | some l => some (updateFirst name f l)

/-- The reqwest loop runs over dependencies, dev-dependencies and
build-dependencies. -/
def fixReqwestPass (d : TomlData) : TomlData :=
  { d with dependencies := fixSectionOpt "reqwest" fixReqwestVal d.dependencies
           devDependencies := fixSectionOpt "reqwest" fixReqwestVal d.devDependencies
           buildDependencies := fixSectionOpt "reqwest" fixReqwestVal d.buildDependencies }

/-- The chrono loop runs over dependencies and dev-dependencies only. -/
def fixChronoPass (d : TomlData) : TomlData :=
  { d with dependencies := fixSectionOpt "chrono" fixChronoVal d.dependencies
           devDependencies := fixSectionOpt "chrono" fixChronoVal d.devDependencies }

/-- The nalgebra loop runs over dependencies and dev-dependencies only. -/
def fixNalgebraPass (d : TomlData) : TomlData :=
  { d with dependencies := fixSectionOpt "nalgebra" fixNalgebraVal d.dependencies
           devDependencies := fixSectionOpt "nalgebra" fixNalgebraVal d.devDependencies }

/-- Metadata loop body: a dict valued field whose workspace key is true
is replaced by the workspace default; everything else is kept. -/
def fixMetaVal (dflt : MetaVal) : Option MetaVal → Option MetaVal
  | some (.table ws) => if ws = some true then some dflt else some (.table ws)
  | v => v

/-- The package metadata pass: substitute workspace defaults for the six
looped fields, then ensure a nonempty description (the fallback text is
the WORKSPACE_DEFAULTS description). -/
def fixPackage (p : PackageMeta) : PackageMeta :=
  { p with
      version := fixMetaVal (.str "1.1.10") p.version
      edition := fixMetaVal (.str "2021") p.edition
      authors := fixMetaVal (.arr ["Hanzo AI Inc"]) p.authors
      license := fixMetaVal (.str "MIT") p.license
      repository := fixMetaVal (.str "https://github.com/hanzoai/hanzo-node") p.repository
      homepage := fixMetaVal (.str "https://hanzo.ai") p.homepage
      description :=
        match p.description with
        | none => some "Hanzo AI component"
        | some s => if s = "" then some "Hanzo AI component" else some s }

/-- fixMeta: the metadata pass runs only when a package table exists. -/
def fixMeta (d : TomlData) : TomlData :=
  { d with package := d.package.map fixPackage }

/-- Add an empty workspace table when absent, marking the manifest as a
standalone crate. -/
def markStandalone (d : TomlData) : TomlData :=
  { d with workspace := true }

/-- The in memory transform performed by fix_workspace_inheritance in
publish-hanzo-improved.py between toml.loads and toml.dump, with the
passes in source order: package metadata, workspace marking, dotted key
folding, inline tables, then the reqwest, chrono and nalgebra feature
loops. -/
def fix_workspace_inheritance (d : TomlData) : TomlData :=
  fixNalgebraPass (fixChronoPass (fixReqwestPass (fix_inline_tables
    ( fix_dependencies_table_syntax (markStandalone (fixMeta d))))))

/-! ## Resolution state predicates used by the claims. -/

/-- A dependency value is explicit: a nonempty version string, or a
table not marked with workspace = true. -/
def depValFixed : DepVal → Prop
  | .str s => s ≠ ""
  | .table t => t.workspace ≠ some true

/-- Every entry of a section is explicit. -/
def sectFixed (l : DepSection) : Prop := ∀ p ∈ l, depValFixed p.2

/-- Every entry of an optional section is explicit. -/
def sectOptFixed : Option DepSection → Prop
  | none => True
  | some l => sectFixed l

/-- The reqwest invariant the resolver actually establishes: the entry
is a table and either has no features key at all or lists json. -/
def reqFixedVal : DepVal → Prop
  | .str _ => False
  | .table t => t.features = none ∨ ∃ fs, t.features = some fs ∧ "json" ∈ fs

/-- The entry is a table whose features list contains the given
mandatory feature. -/
def featFixedVal (feat : String) : DepVal → Prop
  | .str _ => False
  | .table t => ∃ fs, t.features = some fs ∧ feat ∈ fs

/-- The first entry of the given name in an optional section, when
present, satisfies the predicate. -/
def lookFixed (name : String) (P : DepVal → Prop) : Option DepSection → Prop
  | none => True
  | some l => ∀ v, alookup name l = some v → P v

/-- A metadata field no longer marked inherited. -/
def metaValFixed : Option MetaVal → Prop
  | some (.table ws) => ws ≠ some true
  | _ => True

/-- All looped metadata fields explicit and the description nonempty. -/
def pkgFixed (p : PackageMeta) : Prop :=
  metaValFixed p.version ∧ metaValFixed p.edition ∧ metaValFixed p.authors ∧
  metaValFixed p.license ∧ metaValFixed p.repository ∧ metaValFixed p.homepage ∧
  ∃ s, p.description = some s ∧ s ≠ ""

/-- pkgFixed when the package table exists. -/
def pkgOptFixed : Option PackageMeta → Prop
  | none => True
  | some p => pkgFixed p

/-- Every dependency entry of the manifest is explicit. -/
def depsResolved (d : TomlData) : Prop :=
  sectOptFixed d.dependencies ∧ sectOptFixed d.devDependencies ∧
  sectOptFixed d.buildDependencies

/-- The mandatory feature state fix_workspace_inheritance establishes:
json for reqwest in all three sections up to the missing features key
exception, serde for chrono and serde-serialize for nalgebra in the
runtime and dev sections. -/
def mandatoryFeatureState (d : TomlData) : Prop :=
  lookFixed "reqwest" reqFixedVal d.dependencies ∧
  lookFixed "reqwest" reqFixedVal d.devDependencies ∧
  lookFixed "reqwest" reqFixedVal d.buildDependencies ∧
  lookFixed "chrono" (featFixedVal "serde") d.dependencies ∧
  lookFixed "chrono" (featFixedVal "serde") d.devDependencies ∧
  lookFixed "nalgebra" (featFixedVal "serde-serialize") d.dependencies ∧
  lookFixed "nalgebra" (featFixedVal "serde-serialize") d.devDependencies

/-- The full fixed point predicate of the resolver. -/
def dataFixed (d : TomlData) : Prop :=
  pkgOptFixed d.package ∧ d.workspace = true ∧ d.dotted = [] ∧
  depsResolved d ∧ mandatoryFeatureState d

/-- Boolean test for an inherited dependency value. -/
def depValInheritedB : DepVal → Bool
  | .table t => decide (t.workspace = some true)
  | .str _ => false

/-- The manifest contains at least one inherited dependency declaration. -/
def hasInheritedDep (d : TomlData) : Bool :=
  (d.dependencies.getD []).any (fun p => depValInheritedB p.2) ||
  (d.devDependencies.getD []).any (fun p => depValInheritedB p.2) ||
  (d.buildDependencies.getD []).any (fun p => depValInheritedB p.2) ||
  d.dotted.any (fun e => depValInheritedB e.value)

/-- The declared feature list of a dependency value. -/
def featuresOf : DepVal → List String
  | .str _ => []
  | .table t => t.features.getD []

/-- The feature list of the runtime dependency of the given name, for
stating concrete counterexamples. -/
def featuresOfEntry (d : TomlData) (name : String) : List String :=
  featuresOf ((alookup name (d.dependencies.getD [])).getD (.str ""))

/-! ## The on disk manifest and the improved orchestrator.

The file system is modeled as the manifest file content plus an optional
backup copy; cp, the write back of the fixed toml and the restoring mv
are the only operations the scripts perform on it. -/

/-- The per crate file state: the live Cargo.toml content and the backup
file, when present. -/
structure Disk where
  file : String
  backup : Option String
deriving DecidableEq

/-- cp Cargo.toml Cargo.toml.bak. -/
def Disk.cp (d : Disk) : Disk := { d with backup := some d.file }

/-- Write the fixed manifest over the live file. -/
def Disk.writeFile (s : String) (d : Disk) : Disk := { d with file := s }

/-- mv Cargo.toml.bak Cargo.toml: move the backup over the live file.
Without a backup the move fails and run_command swallows the error,
leaving the state unchanged. -/
def Disk.restoreMv (d : Disk) : Disk :=
  match d.backup with
  | some b => { file := b, backup := none }
  | none => d

/-- The external outcomes one crate can meet in the improved script:
does the crate directory exist, what the backup cp invocation returned,
what fix_workspace_inheritance did at the file level (either it raised,
for example a toml parse error, or it wrote new content), and what the
cargo publish invocation returned.  The fixAction oracle stands for the
composition of toml.loads, the data transform and toml.dump, which this
embedding does not model at the text level. -/
structure CrateEnv where
  dirExists : Bool
  cpOutcome : CmdOutcome
  fixAction : Except String String
  publishOutcome : CmdOutcome
  disk : Disk
deriving DecidableEq

/-- publish_crate of publish-hanzo-improved.py.  The backup cp failing
returns False with nothing mutated.  After a successful backup the body
runs under try/finally with no except clause: an exception raised by
fix_workspace_inheritance propagates (Except.error) after the finally
block restores the backup; otherwise the fixed content is written, cargo
publish runs, and the function returns the bare success flag of the
publish command (the output is not consulted), again restoring the
backup in the finally block. -/
def publish_crate (env : CrateEnv) : Except String Bool × Disk :=
  let cpRes := run_command_pair env.cpOutcome
  if cpRes.1 = false then (.ok false, env.disk)
  else
    let d1 := env.disk.cp
    match env.fixAction with
    | .error e => (.error e, d1.restoreMv)
    | .ok txt =>
      let d2 := d1.writeFile txt
      let pubRes := run_command_pair env.publishOutcome
      (.ok pubRes.1, d2.restoreMv)

/-- The main loop of publish-hanzo-improved.py over a supplied order,
returning the publish attempts made plus the succeeded and failed name
lists of the final report.  A missing crate directory is recorded as
failed and the loop continues; an exception escaping publish_crate
aborts the whole run (there is no handler in main). -/
def mainImproved : List (String × CrateEnv) → Except String (List String × List String × List String)
  | [] => .ok ([], [], [])
  | (name, env) :: rest =>
    if env.dirExists = false then
      (mainImproved rest).map fun r => (r.1, r.2.1, name :: r.2.2)
    else
      match (publish_crate env).1 with
      | .error e => .error e
      | .ok b =>
        (mainImproved rest).map fun r =>
          (name :: r.1, (if b then name :: r.2.1 else r.2.1),
           (if b then r.2.2 else name :: r.2.2))

/-! ## publish-hanzo-automated.py: tables, regex substitution, registry. -/

/-- WORKSPACE_DEPS of publish-hanzo-automated.py, transcribed. -/
def WORKSPACE_DEPS : List (String × String) :=
  [("tokio", "1.36"),
   ("serde", "1.0.219"),
   ("serde_json", "1.0.117"),
   ("chrono", "0.4"),
   ("reqwest", "0.11.27"),
   ("log", "0.4.20"),
   ("async-trait", "0.1.81"),
   ("futures", "0.3.30"),
   ("anyhow", "1.0.86"),
   ("dashmap", "6.0"),
   ("ed25519-dalek", "2.1.1"),
   ("x25519-dalek", "2.0.1"),
   ("base64", "0.22.0"),
   ("rusqlite", "0.31.0"),
   ("dirs", "5.0"),
   ("clap", "4.5.4"),
   ("home", "0.5.5"),
   ("utoipa", "4.2"),
   ("tracing", "0.1.40"),
   ("lazy_static", "1.4.0"),
   ("once_cell", "1.19"),
   ("regex", "1"),
   ("tempfile", "3.8")]

/-- CRYPTO_FEATURES of publish-hanzo-automated.py, transcribed. -/
def CRYPTO_FEATURES : List (String × List String) :=
  [("ed25519-dalek", ["rand_core"]),
   ("x25519-dalek", ["static_secrets"]),
   ("chrono", ["serde"]),
   ("tokio", ["rt", "rt-multi-thread", "macros", "fs", "io-util", "net", "sync", "time"]),
   ("serde", ["derive"])]

/-- The initial PUBLISHED_HANZO registry, seeded with the known
published crates. -/
def PUBLISHED_HANZO : List (String × String) :=
  [("hanzo_message_primitives", "1.1.10"),
   ("hanzo_non_rust_code", "1.1.10"),
   ("hanzo_crypto_identities", "1.1.10"),
   ("hanzo_tools_runner", "1.0.3")]

/-- A dependency declaration as the regex of create_fixed_cargo_toml
sees it: an inherited declaration is a text span NAME = { workspace =
true ... } whose trailing text (anything up to the closing brace, for
example a features list) is captured by rest and discarded on
substitution; bare and table are the two explicit shapes the
substitution produces; raw is any other declaration text, which the
regex does not match. -/
inductive DepDeclA where
  | inherited (rest : String)
  | bare (version : String)
  | table (version : String) (features : List String)
  | raw (text : String)
deriving DecidableEq

/-- The explicit declaration written for a resolved name: a table with
the CRYPTO_FEATURES list when the name has one, else a bare version. -/
def mkExplicitA (name version : String) : DepDeclA :=
  match alookup name CRYPTO_FEATURES with
  | some fs => .table version fs
  | none => .bare version

/-- replace_dep of publish-hanzo-automated.py: for a regex matched
inherited declaration, first look the underscored name up in the live
published registry, then in WORKSPACE_DEPS, and otherwise return the
matched text unchanged (the declaration stays inherited).  Declarations
not matched by the regex are untouched. -/
def replace_dep (published : List (String × String)) (name : String) :
    DepDeclA → DepDeclA
  | .inherited rest =>
    match alookup (stringReplace name "-" "_") published with
    | some v => mkExplicitA name v
    | none =>
      match alookup name WORKSPACE_DEPS with
      | some v => mkExplicitA name v
      | none => .inherited rest
  | d => d

/-- The manifest view used by the automated script: the dependency
declarations in file order.  The metadata regex edits of
create_fixed_cargo_toml touch no dependency declaration and are not
referenced by any claim, so the view omits them. -/
structure ManifestA where
  deps : List (String × DepDeclA)
deriving DecidableEq

/-- The dependency substitution stage of create_fixed_cargo_toml: the
global regex replacement applying replace_dep to every inherited
declaration. -/
def replace_workspace_deps (published : List (String × String)) (m : ManifestA) : ManifestA :=
  { deps := m.deps.map fun p => (p.1, replace_dep published p.1 p.2) }

/-- Version carried by an explicit declaration. -/
def declVersionA : DepDeclA → Option String
  | .bare v => some v
  | .table v _ => some v
  | _ => none

/-- Boolean test for a still inherited declaration. -/
def isInheritedA : DepDeclA → Bool
  | .inherited _ => true
  | _ => false

/-- Print one declaration back to manifest text (braces written through
escapes); only used to place content on the modeled disk. -/
def serializeDeclA (p : String × DepDeclA) : String :=
  match p.2 with
  | .inherited rest => p.1 ++ " = \x7b workspace = true" ++ rest ++ "\x7d"
  | .bare v => p.1 ++ " = \"" ++ v ++ "\""
  | .table v fs =>
    p.1 ++ " = \x7b version = \"" ++ v ++ "\", features = [" ++
      String.intercalate ", " (fs.map fun f => "\"" ++ f ++ "\"") ++ "] \x7d"
  | .raw t => t

/-- Print the manifest view back to text. -/
def serializeA (m : ManifestA) : String :=
  String.intercalate "\n" (m.deps.map serializeDeclA)

/-- External outcomes for one crate in the automated script: directory
existence, the parsed manifest (none models read_cargo_toml raising,
which the except clause catches), whether the checked backup cp raised,
the publish invocation outcome and the initial file state. -/
structure EnvA where
  dirExists : Bool
  manifest : Option ManifestA
  cpRaises : Bool
  publishOutcome : CmdOutcome
  disk : Disk
deriving DecidableEq

/-- publish_crate of publish-hanzo-automated.py.  Missing directory or
an exception inside the fixing try block returns False with nothing
mutated.  Otherwise backup, write the fixed content, run cargo publish,
always move the backup back, and classify: success or an output
containing already uploaded (case insensitive) counts as published and
appends the underscored crate name with version 1.1.10 to the live
registry. -/
def publish_crateA (published : List (String × String)) (name : String) (env : EnvA) :
    Bool × List (String × String) × Disk :=
  if env.dirExists = false then (false, published, env.disk)
  else
    match env.manifest with
    | none => (false, published, env.disk)
    | some m =>
      if env.cpRaises then (false, published, env.disk)
      else
        let d1 := env.disk.cp
        let d2 := d1.writeFile (serializeA (replace_workspace_deps published m))
        let pubRes := run_command_pair env.publishOutcome
        let d3 := d2.restoreMv
        if pubRes.1 || containsSub (lowerStr pubRes.2) "already uploaded" then
          (true, setA (stringReplace name "-" "_") "1.1.10" published, d3)
        else
          (false, published, d3)

/-- The registry evolution of the automated main loop: process the
crates in order, threading the live PUBLISHED_HANZO registry. -/
def runAutomated (published : List (String × String)) :
    List (String × EnvA) → List (String × String)
  | [] => published
  | (name, env) :: rest => runAutomated (publish_crateA published name env).2.1 rest

/-! ## publish-all-hanzo-crates.py: in place fixes, interactive loop. -/

/-- fix_cargo_toml of publish-all-hanzo-crates.py as a text transform:
two version replacements and two feature additions, each a plain
str.replace (the guarding membership tests make no difference because
replace of an absent pattern is the identity). -/
def fix_cargo_toml_content (c : String) : String :=
  let c := stringReplace c "thiserror = \"1.0.86\"" "thiserror = \"2.0\""
  let c := stringReplace c "blake3 = \"1.8.2\"" "blake3 = \"1.5\""
  let c := stringReplace c "ed25519-dalek = \"2.1.1\""
    "ed25519-dalek = \x7b version = \"2.1.1\", features = [\"rand_core\"] \x7d"
  let c := stringReplace c "x25519-dalek = \"2.0.1\""
    "x25519-dalek = \x7b version = \"2.0.1\", features = [\"static_secrets\"] \x7d"
  c

/-- External outcomes for one crate in publish-all-hanzo-crates.py,
including the operator reply to the continue prompt shown after a
failure. -/
structure EnvC where
  dirExists : Bool
  manifestExists : Bool
  manifest : String
  publishOutcome : CmdOutcome
  continueResponse : String
deriving DecidableEq

/-- publish_crate of publish-all-hanzo-crates.py, returning the
classification and the final on disk manifest content.  fix_cargo_toml
rewrites the manifest in place (no backup is ever taken and nothing is
restored); its return value is ignored and the publish proceeds either
way.  Classification counts success or an output containing already
uploaded (case insensitive) as published. -/
def publish_crateC (env : EnvC) : Bool × String :=
  if env.dirExists = false then (false, env.manifest)
  else
    let content := if env.manifestExists then fix_cargo_toml_content env.manifest else env.manifest
    let pubRes := run_command_pair env.publishOutcome
    (pubRes.1 || containsSub (lowerStr pubRes.2) "already uploaded", content)

/-- The main loop of publish-all-hanzo-crates.py: skip the crate named
hanzo-message-primitives, and after a failure ask the operator whether
to continue; any reply whose lowering is not y breaks out of the loop,
leaving the remaining crates unprocessed. -/
def mainAllCrates : List (String × EnvC) → List String × List String
  | [] => ([], [])
  | (name, env) :: rest =>
    if name = "hanzo-message-primitives" then mainAllCrates rest
    else if (publish_crateC env).1 then
      let r := mainAllCrates rest
      (name :: r.1, r.2)
    else if lowerStr env.continueResponse = "y" then
      let r := mainAllCrates rest
      (r.1, name :: r.2)
    else
      ([], [name])

/-! ## Concrete instances used by counterexamples, witnesses and
evaluations. -/

/-- A manifest with one inherited dependency (serde) and one explicit
reqwest table that has no features key. -/
def c1cexManifest : TomlData :=
  { package := none, workspace := false, dotted := []
    dependencies := some [("serde", .table ⟨some true, none, none, []⟩),
                          ("reqwest", .table ⟨none, some "0.11.27", none, []⟩)]
    devDependencies := none, buildDependencies := none, extra := [] }

/-- An inherited chrono declaration carrying a declared feature and an
optional sub field. -/
def c7cexTable : DepTable :=
  { workspace := some true, version := none
    features := some ["clock"], extra := [("optional", "true")] }

/-- An improved script environment where cargo publish exits with a non
zero status but reports that the crate is already uploaded. -/
def c3cexEnv : CrateEnv :=
  { dirExists := true
    cpOutcome := .completed 0 "" ""
    fixAction := .ok "fixed manifest text"
    publishOutcome := .completed 101 "error: crate version is already uploaded\n" ""
    disk := { file := "original manifest", backup := none } }

/-- An automated script environment with the same publish outcome, used
to witness the already uploaded classification. -/
def c3witEnvA : EnvA :=
  { dirExists := true
    manifest := some { deps := [] }
    cpRaises := false
    publishOutcome := .completed 101 "error: crate version is already uploaded\n" ""
    disk := { file := "m", backup := none } }

/-- A publish-all environment with the same publish outcome. -/
def c3witEnvC : EnvC :=
  { dirExists := true, manifestExists := true
    manifest := "m"
    publishOutcome := .completed 101 "error: crate version is Already Uploaded\n" ""
    continueResponse := "y" }

/-- A manifest whose only content is a thiserror declaration the fix
rewrites in place. -/
def c2cexEnv : EnvC :=
  { dirExists := true, manifestExists := true
    manifest := "thiserror = \"1.0.86\"\n"
    publishOutcome := .completed 0 "" ""
    continueResponse := "y" }

/-- A two crate order where the first publish is rejected and the
operator answers n to the continue prompt. -/
def c4cexList : List (String × EnvC) :=
  [("hanzo-db",
    { dirExists := true, manifestExists := true, manifest := "a"
      publishOutcome := .completed 101 "error: rejected" "", continueResponse := "n" }),
   ("hanzo-fs",
    { dirExists := true, manifestExists := true, manifest := "b"
      publishOutcome := .completed 0 "" "", continueResponse := "y" })]

/-- A three crate order for the improved orchestrator: the first is
published, the second directory is missing, the third publish is
rejected. -/
def c4witList : List (String × CrateEnv) :=
  [("hanzo-pqc",
    { dirExists := true, cpOutcome := .completed 0 "" "", fixAction := .ok "f1"
      publishOutcome := .completed 0 "published" "", disk := { file := "m1", backup := none } }),
   ("hanzo-db",
    { dirExists := false, cpOutcome := .completed 0 "" "", fixAction := .ok "f2"
      publishOutcome := .completed 0 "" "", disk := { file := "m2", backup := none } }),
   ("hanzo-fs",
    { dirExists := true, cpOutcome := .completed 0 "" "", fixAction := .ok "f3"
      publishOutcome := .completed 101 "error: rejected" "", disk := { file := "m3", backup := none } })]

/-- An automated environment whose publish succeeds, used to witness the
live registry update. -/
def c5witEnv : EnvA :=
  { dirExists := true
    manifest := some { deps := [("hanzo-db", .inherited " ")] }
    cpRaises := false
    publishOutcome := .completed 0 "published" ""
    disk := { file := "m", backup := none } }

/-- A two crate order for the improved orchestrator where the manifest
of the first crate fails to parse: fix_workspace_inheritance raises and
nothing catches the exception. -/
def c9cexList : List (String × CrateEnv) :=
  [("hanzo-db",
    { dirExists := true, cpOutcome := .completed 0 "" ""
      fixAction := .error "TomlDecodeError: invalid statement"
      publishOutcome := .completed 0 "" "", disk := { file := "m1", backup := none } }),
   ("hanzo-fs",
    { dirExists := true, cpOutcome := .completed 0 "" "", fixAction := .ok "f"
      publishOutcome := .completed 0 "" "", disk := { file := "m2", backup := none } })]

/-! ## Helper lemmas on the association list operations. -/

theorem alookup_mem {α : Type} {k : String} {v : α} {l : List (String × α)}
    (h : alookup k l = some v) : (k, v) ∈ l := by
  induction l with
  | nil => simp [alookup] at h
  | cons p rest ih =>
    obtain ⟨k', v'⟩ := p
    by_cases hk : k' = k
    · subst hk
      simp [alookup] at h
      subst h
      exact List.mem_cons_self _ _
    · simp [alookup, hk] at h
      exact List.mem_cons_of_mem _ (ih h)

theorem alookup_setA_self {α : Type} (k : String) (v : α) (l : List (String × α)) :
    alookup k (setA k v l) = some v := by
  induction l with
  | nil => simp [setA, alookup]
  | cons p rest ih =>
    obtain ⟨k', v'⟩ := p
    by_cases hk : k' = k
    · simp [setA, hk, alookup]
    · simp [setA, hk, alookup, ih]

theorem alookup_setA_ne {α : Type} {k k' : String} (h : k' ≠ k) (v : α)
    (l : List (String × α)) : alookup k (setA k' v l) = alookup k l := by
  induction l with
  | nil => simp [setA, alookup, h]
  | cons p rest ih =>
    obtain ⟨k'', v'⟩ := p
    by_cases hk : k'' = k'
    · subst hk
      simp [setA, alookup, h]
    · by_cases hk2 : k'' = k
      · simp [setA, alookup, hk, hk2, Ne.symm h]
      · simp [setA, alookup, hk, hk2, ih]

theorem alookup_updateFirst_self {α : Type} (k : String) (f : α → α)
    (l : List (String × α)) :
    alookup k (updateFirst k f l) = (alookup k l).map f := by
  induction l with
  | nil => simp [updateFirst, alookup]
  | cons p rest ih =>
    obtain ⟨k', v⟩ := p
    by_cases hk : k' = k
    · simp [updateFirst, hk, alookup]
    · simp [updateFirst, hk, alookup, ih]

theorem alookup_updateFirst_ne {α : Type} {k k' : String} (h : k' ≠ k) (f : α → α)
    (l : List (String × α)) : alookup k (updateFirst k' f l) = alookup k l := by
  induction l with
  | nil => simp [updateFirst]
  | cons p rest ih =>
    obtain ⟨k'', v⟩ := p
    by_cases hk : k'' = k'
    · subst hk
      simp [updateFirst, alookup, h]
    · by_cases hk2 : k'' = k
      · simp [updateFirst, alookup, hk, hk2, Ne.symm h]
      · simp [updateFirst, alookup, hk, hk2, ih]

theorem updateFirst_pres {α : Type} {P : α → Prop} (k : String) (f : α → α)
    (l : List (String × α)) :
    (∀ p ∈ l, P p.2) → (∀ v, P v → P (f v)) →
    ∀ p ∈ updateFirst k f l, P p.2 := by
  induction l with
  | nil => intro _ _ p hp; simp [updateFirst] at hp
  | cons q rest ih =>
    intro hl hf p hp
    obtain ⟨k', v⟩ := q
    by_cases hk : k' = k
    · simp [updateFirst, hk] at hp
      rcases hp with hp | hp
      · rw [hp]
        exact hf v (hl _ (List.mem_cons_self _ _))
      · exact hl p (List.mem_cons_of_mem _ hp)
    · simp [updateFirst, hk] at hp
      rcases hp with hp | hp
      · rw [hp]
        exact hl _ (List.mem_cons_self _ _)
      · exact ih (fun q hq => hl q (List.mem_cons_of_mem _ hq)) hf p hp

theorem updateFirst_id {α : Type} {k : String} {f : α → α} {l : List (String × α)}
    (h : ∀ v, alookup k l = some v → f v = v) : updateFirst k f l = l := by
  induction l with
  | nil => simp [updateFirst]
  | cons p rest ih =>
    obtain ⟨k', v⟩ := p
    by_cases hk : k' = k
    · have hv : f v = v := h v (by simp [alookup, hk])
      simp [updateFirst, hk, hv]
    · simp [updateFirst, hk]
      exact ih (fun w hw => h w (by simpa [alookup, hk] using hw))

/-! ## Value level lemmas about the resolver passes. -/

theorem depVersions_ne_empty {n v : String} (h : alookup n DEPENDENCY_VERSIONS = some v) :
    v ≠ "" := by
  have hall : ∀ p ∈ DEPENDENCY_VERSIONS, p.2 ≠ "" := by decide
  exact hall _ (alookup_mem h)

theorem fixInlineDep_fixed (n : String) (v : DepVal) : depValFixed (fixInlineDep n v) := by
  cases v with
  | str s =>
    by_cases hs : s = ""
    · subst hs
      simp only [fixInlineDep, if_pos rfl]
      cases hv : alookup n DEPENDENCY_VERSIONS with
      | none => simp [hv, depValFixed]
      | some w => simp [hv, depValFixed, depVersions_ne_empty hv]
    · simp [fixInlineDep, hs, depValFixed]
  | table t =>
    by_cases ht : t.workspace = some true
    · simp [fixInlineDep, ht, depValFixed]
    · simp [fixInlineDep, ht, depValFixed, ht]

theorem fixInlineDep_id {n : String} {v : DepVal} (h : depValFixed v) :
    fixInlineDep n v = v := by
  cases v with
  | str s =>
    simp only [depValFixed] at h
    simp [fixInlineDep, h]
  | table t =>
    simp only [depValFixed] at h
    simp [fixInlineDep, h]

theorem fixReqwestVal_fixed {v : DepVal} (h : depValFixed v) :
    depValFixed (fixReqwestVal v) := by
  cases v with
  | str s => simp [fixReqwestVal, depValFixed]
  | table t =>
    simp only [depValFixed] at h
    cases hf : t.features with
    | none => simpa [fixReqwestVal, hf, depValFixed]
    | some fs =>
      by_cases hj : "json" ∈ fs
      · simpa [fixReqwestVal, hf, hj, depValFixed]
      · simpa [fixReqwestVal, hf, hj, depValFixed]

theorem fixReqwestVal_inv (v : DepVal) : reqFixedVal (fixReqwestVal v) := by
  cases v with
  | str s => simp [fixReqwestVal, reqFixedVal]
  | table t =>
    cases hf : t.features with
    | none => simp [fixReqwestVal, hf, reqFixedVal]
    | some fs =>
      by_cases hj : "json" ∈ fs
      · simp only [fixReqwestVal, hf, if_pos hj, reqFixedVal]
        exact Or.inr ⟨fs, rfl, hj⟩
      · simp only [fixReqwestVal, hf, if_neg hj, reqFixedVal]
        exact Or.inr ⟨fs ++ ["json"], rfl, by simp⟩

theorem fixReqwestVal_id {v : DepVal} (h : reqFixedVal v) : fixReqwestVal v = v := by
  cases v with
  | str s => simp [reqFixedVal] at h
  | table t =>
    simp only [reqFixedVal] at h
    rcases h with h | ⟨fs, hf, hj⟩
    · simp [fixReqwestVal, h]
    · simp [fixReqwestVal, hf, hj]

theorem featEnsureVal_fixed (dflt feat : String) {v : DepVal} (h : depValFixed v) :
    depValFixed (featEnsureVal dflt feat v) := by
  cases v with
  | str s => simp [featEnsureVal, depValFixed]
  | table t =>
    simp only [depValFixed] at h
    cases hf : t.features with
    | none => simpa [featEnsureVal, hf, depValFixed]
    | some fs =>
      by_cases hj : feat ∈ fs
      · simpa [featEnsureVal, hf, hj, depValFixed]
      · simpa [featEnsureVal, hf, hj, depValFixed]

theorem featEnsureVal_inv (dflt feat : String) (v : DepVal) :
    featFixedVal feat (featEnsureVal dflt feat v) := by
  cases v with
  | str s => simp [featEnsureVal, featFixedVal]
  | table t =>
    cases hf : t.features with
    | none => simp [featEnsureVal, hf, featFixedVal]
    | some fs =>
      by_cases hj : feat ∈ fs
      · simp only [featEnsureVal, hf, if_pos hj, featFixedVal]
        exact ⟨fs, rfl, hj⟩
      · simp only [featEnsureVal, hf, if_neg hj, featFixedVal]
        exact ⟨fs ++ [feat], rfl, by simp⟩

theorem featEnsureVal_id (dflt feat : String) {v : DepVal} (h : featFixedVal feat v) :
    featEnsureVal dflt feat v = v := by
  cases v with
  | str s => simp [featFixedVal] at h
  | table t =>
    simp only [featFixedVal] at h
    obtain ⟨fs, hf, hj⟩ := h
    simp [featEnsureVal, hf, hj]

/-! ## Section level lemmas. -/

theorem fixInlineSection_fixed (l : DepSection) : sectFixed (fixInlineSection l) := by
  intro p hp
  simp only [fixInlineSection, List.mem_map] at hp
  obtain ⟨q, _, hq⟩ := hp
  rw [← hq]
  exact fixInlineDep_fixed q.1 q.2

theorem sectOptFixed_map (o : Option DepSection) :
    sectOptFixed (o.map fixInlineSection) := by
  cases o with
  | none => simp [sectOptFixed]
  | some l => exact fixInlineSection_fixed l

theorem fixInlineSection_id {l : DepSection} (h : sectFixed l) : fixInlineSection l = l := by
  induction l with
  | nil => rfl
  | cons p rest ih =>
    have h1 : fixInlineDep p.1 p.2 = p.2 := fixInlineDep_id (h p (List.mem_cons_self _ _))
    have h2 : fixInlineSection rest = rest :=
      ih (fun q hq => h q (List.mem_cons_of_mem _ hq))
    simp only [fixInlineSection, List.map] at h2 ⊢
    simp [h1, h2]

theorem optInline_id {o : Option DepSection} (h : sectOptFixed o) :
    o.map fixInlineSection = o := by
  cases o with
  | none => rfl
  | some l => simp [fixInlineSection_id h]

theorem sectOptFixed_fixSectionOpt (k : String) {f : DepVal → DepVal}
    {o : Option DepSection} (ho : sectOptFixed o)
    (hf : ∀ v, depValFixed v → depValFixed (f v)) :
    sectOptFixed (fixSectionOpt k f o) := by
  cases o with
  | none => simp [fixSectionOpt, sectOptFixed]
  | some l => exact updateFirst_pres k f l ho hf

theorem lookFixed_fixSectionOpt_self {P : DepVal → Prop} (k : String) {f : DepVal → DepVal}
    (hf : ∀ v, P (f v)) (o : Option DepSection) :
    lookFixed k P (fixSectionOpt k f o) := by
  cases o with
  | none => simp [fixSectionOpt, lookFixed]
  | some l =>
    intro v hv
    rw [alookup_updateFirst_self] at hv
    cases hl : alookup k l with
    | none => rw [hl] at hv; simp at hv
    | some w =>
      rw [hl] at hv
      simp only [Option.map_some'] at hv
      rw [← Option.some_inj.mp hv]
      exact hf w

theorem lookFixed_fixSectionOpt_ne {P : DepVal → Prop} {k k' : String} (h : k' ≠ k)
    (f : DepVal → DepVal) {o : Option DepSection} (ho : lookFixed k P o) :
    lookFixed k P (fixSectionOpt k' f o) := by
  cases o with
  | none => simp [fixSectionOpt, lookFixed]
  | some l =>
    intro v hv
    rw [alookup_updateFirst_ne h] at hv
    exact ho v hv

theorem fixSectionOpt_id {P : DepVal → Prop} {k : String} {f : DepVal → DepVal}
    {o : Option DepSection} (ho : lookFixed k P o) (hf : ∀ v, P v → f v = v) :
    fixSectionOpt k f o = o := by
  cases o with
  | none => rfl
  | some l =>
    simp only [fixSectionOpt, Option.some_inj]
    exact updateFirst_id (fun v hv => hf v (ho v hv))

/-! ## Projection lemmas for the dotted key folding. -/

theorem insertDotted_package (e : DottedEntry) (d : TomlData) :
    (insertDotted e d).package = d.package := by
  obtain ⟨sect, name, value⟩ := e
  cases sect <;> rfl

theorem insertDotted_workspace (e : DottedEntry) (d : TomlData) :
    (insertDotted e d).workspace = d.workspace := by
  obtain ⟨sect, name, value⟩ := e
  cases sect <;> rfl

theorem insertDotted_dotted (e : DottedEntry) (d : TomlData) :
    (insertDotted e d).dotted = d.dotted := by
  obtain ⟨sect, name, value⟩ := e
  cases sect <;> rfl

theorem applyDotted_package (es : List DottedEntry) (d : TomlData) :
    (applyDotted es d).package = d.package := by
  induction es generalizing d with
  | nil => rfl
  | cons e es ih => simp [applyDotted, ih, insertDotted_package]

theorem applyDotted_workspace (es : List DottedEntry) (d : TomlData) :
    (applyDotted es d).workspace = d.workspace := by
  induction es generalizing d with
  | nil => rfl
  | cons e es ih => simp [applyDotted, ih, insertDotted_workspace]

theorem applyDotted_dotted (es : List DottedEntry) (d : TomlData) :
    (applyDotted es d).dotted = d.dotted := by
  induction es generalizing d with
  | nil => rfl
  | cons e es ih => simp [applyDotted, ih, insertDotted_dotted]

/-! ## Metadata pass lemmas. -/

theorem fixMetaVal_fixed {dflt : MetaVal} (hd : metaValFixed (some dflt))
    (v : Option MetaVal) : metaValFixed (fixMetaVal dflt v) := by
  cases v with
  | none => simp [fixMetaVal, metaValFixed]
  | some m =>
    cases m with
    | str s => simp [fixMetaVal, metaValFixed]
    | arr xs => simp [fixMetaVal, metaValFixed]
    | table ws =>
      by_cases hw : ws = some true
      · simpa [fixMetaVal, hw]
      · simp [fixMetaVal, hw, metaValFixed]

theorem fixPackage_fixed (p : PackageMeta) : pkgFixed (fixPackage p) := by
  refine ⟨fixMetaVal_fixed (by trivial) p.version, fixMetaVal_fixed (by trivial) p.edition,
    fixMetaVal_fixed (by trivial) p.authors, fixMetaVal_fixed (by trivial) p.license,
    fixMetaVal_fixed (by trivial) p.repository, fixMetaVal_fixed (by trivial) p.homepage, ?_⟩
  cases hd : p.description with
  | none => exact ⟨"Hanzo AI component", by simp [fixPackage, hd], by decide⟩
  | some s =>
    by_cases hs : s = ""
    · exact ⟨"Hanzo AI component", by simp [fixPackage, hd, hs], by decide⟩
    · exact ⟨s, by simp [fixPackage, hd, hs], hs⟩

theorem pkgOptFixed_map (o : Option PackageMeta) : pkgOptFixed (o.map fixPackage) := by
  cases o with
  | none => simp [pkgOptFixed]
  | some p => exact fixPackage_fixed p

theorem fixMetaVal_id {dflt : MetaVal} {v : Option MetaVal} (h : metaValFixed v) :
    fixMetaVal dflt v = v := by
  cases v with
  | none => rfl
  | some m =>
    cases m with
    | str s => rfl
    | arr xs => rfl
    | table ws =>
      simp only [metaValFixed] at h
      simp [fixMetaVal, h]

theorem fixPackage_id {p : PackageMeta} (h : pkgFixed p) : fixPackage p = p := by
  obtain ⟨pv, pe, pa, pl, pr, ph, pd, px⟩ := p
  obtain ⟨h1, h2, h3, h4, h5, h6, s, hs, hne⟩ := h
  simp only at hs
  subst hs
  simp only [fixPackage, fixMetaVal_id h1, fixMetaVal_id h2, fixMetaVal_id h3,
    fixMetaVal_id h4, fixMetaVal_id h5, fixMetaVal_id h6]
  simp [hne]

theorem fixMeta_id {d : TomlData} (h : pkgOptFixed d.package) : fixMeta d = d := by
  obtain ⟨pkg, w, dt, dp, dv, db, ex⟩ := d
  cases pkg with
  | none => rfl
  | some p =>
    simp only [pkgOptFixed] at h
    simp [fixMeta, fixPackage_id h]

theorem markStandalone_id {d : TomlData} (h : d.workspace = true) : markStandalone d = d := by
  obtain ⟨pkg, w, dt, dp, dv, db, ex⟩ := d
  simp only at h
  subst h
  rfl

theorem fix_dependencies_table_syntax_id {d : TomlData} (h : d.dotted = []) :
    fix_dependencies_table_syntax d = d := by
  obtain ⟨pkg, w, dt, dp, dv, db, ex⟩ := d
  simp only at h
  subst h
  rfl

theorem fix_inline_tables_id {d : TomlData} (h : depsResolved d) :
    fix_inline_tables d = d := by
  obtain ⟨h1, h2, h3⟩ := h
  obtain ⟨pkg, w, dt, dp, dv, db, ex⟩ := d
  simp only [fix_inline_tables, optInline_id h1, optInline_id h2, optInline_id h3]

theorem fixReqwestPass_id {d : TomlData} (h : mandatoryFeatureState d) :
    fixReqwestPass d = d := by
  obtain ⟨hr1, hr2, hr3, _, _, _, _⟩ := h
  obtain ⟨pkg, w, dt, dp, dv, db, ex⟩ := d
  simp only [fixReqwestPass, fixSectionOpt_id hr1 (fun v hv => fixReqwestVal_id hv),
    fixSectionOpt_id hr2 (fun v hv => fixReqwestVal_id hv),
    fixSectionOpt_id hr3 (fun v hv => fixReqwestVal_id hv)]

theorem fixChronoPass_id {d : TomlData} (h : mandatoryFeatureState d) :
    fixChronoPass d = d := by
  obtain ⟨_, _, _, hc1, hc2, _, _⟩ := h
  obtain ⟨pkg, w, dt, dp, dv, db, ex⟩ := d
  simp only [fixChronoPass, fixChronoVal,
    fixSectionOpt_id hc1 (fun v hv => featEnsureVal_id "0.4" "serde" hv),
    fixSectionOpt_id hc2 (fun v hv => featEnsureVal_id "0.4" "serde" hv)]

theorem fixNalgebraPass_id {d : TomlData} (h : mandatoryFeatureState d) :
    fixNalgebraPass d = d := by
  obtain ⟨_, _, _, _, _, hn1, hn2⟩ := h
  obtain ⟨pkg, w, dt, dp, dv, db, ex⟩ := d
  simp only [fixNalgebraPass, fixNalgebraVal,
    fixSectionOpt_id hn1 (fun v hv => featEnsureVal_id "0.32" "serde-serialize" hv),
    fixSectionOpt_id hn2 (fun v hv => featEnsureVal_id "0.32" "serde-serialize" hv)]

/-! ## The resolver reaches a fixed point. -/

theorem dataFixed_fix (d : TomlData) : dataFixed (fix_workspace_inheritance d) := by
  have hpack : (fix_workspace_inheritance d).package = d.package.map fixPackage := by
    simp [fix_workspace_inheritance, fixNalgebraPass, fixChronoPass, fixReqwestPass,
      fix_inline_tables, fix_dependencies_table_syntax, applyDotted_package,
      markStandalone, fixMeta]
  have hws : (fix_workspace_inheritance d).workspace = true := by
    simp [fix_workspace_inheritance, fixNalgebraPass, fixChronoPass, fixReqwestPass,
      fix_inline_tables, fix_dependencies_table_syntax, applyDotted_workspace,
      markStandalone, fixMeta]
  have hdot : (fix_workspace_inheritance d).dotted = [] := by
    simp [fix_workspace_inheritance, fixNalgebraPass, fixChronoPass, fixReqwestPass,
      fix_inline_tables, fix_dependencies_table_syntax, applyDotted_dotted,
      markStandalone, fixMeta]
  refine ⟨?_, hws, hdot, ⟨?_, ?_, ?_⟩, ?_, ?_, ?_, ?_, ?_, ?_, ?_⟩
  · rw [hpack]; exact pkgOptFixed_map d.package
  · exact sectOptFixed_fixSectionOpt _
      (sectOptFixed_fixSectionOpt _
        (sectOptFixed_fixSectionOpt _ (sectOptFixed_map _)
          (fun v hv => fixReqwestVal_fixed hv))
        (fun v hv => featEnsureVal_fixed _ _ hv))
      (fun v hv => featEnsureVal_fixed _ _ hv)
  · exact sectOptFixed_fixSectionOpt _
      (sectOptFixed_fixSectionOpt _
        (sectOptFixed_fixSectionOpt _ (sectOptFixed_map _)
          (fun v hv => fixReqwestVal_fixed hv))
        (fun v hv => featEnsureVal_fixed _ _ hv))
      (fun v hv => featEnsureVal_fixed _ _ hv)
  · exact sectOptFixed_fixSectionOpt _ (sectOptFixed_map _)
      (fun v hv => fixReqwestVal_fixed hv)
  · exact lookFixed_fixSectionOpt_ne (by decide) _
      (lookFixed_fixSectionOpt_ne (by decide) _
        (lookFixed_fixSectionOpt_self "reqwest" fixReqwestVal_inv _))
  · exact lookFixed_fixSectionOpt_ne (by decide) _
      (lookFixed_fixSectionOpt_ne (by decide) _
        (lookFixed_fixSectionOpt_self "reqwest" fixReqwestVal_inv _))
  · exact lookFixed_fixSectionOpt_self "reqwest" fixReqwestVal_inv _
  · exact lookFixed_fixSectionOpt_ne (by decide) _
      (lookFixed_fixSectionOpt_self "chrono" (featEnsureVal_inv "0.4" "serde") _)
  · exact lookFixed_fixSectionOpt_ne (by decide) _
      (lookFixed_fixSectionOpt_self "chrono" (featEnsureVal_inv "0.4" "serde") _)
  · exact lookFixed_fixSectionOpt_self "nalgebra" (featEnsureVal_inv "0.32" "serde-serialize") _
  · exact lookFixed_fixSectionOpt_self "nalgebra" (featEnsureVal_inv "0.32" "serde-serialize") _

theorem fix_id {d : TomlData} (h : dataFixed d) : fix_workspace_inheritance d = d := by
  obtain ⟨h1, h2, h3, h4, h5⟩ := h
  unfold fix_workspace_inheritance
  rw [fixMeta_id h1, markStandalone_id h2, fix_dependencies_table_syntax_id h3,
    fix_inline_tables_id h4, fixReqwestPass_id h5, fixChronoPass_id h5,
    fixNalgebraPass_id h5]

/-! ## Orchestrator lemmas. -/

theorem publish_crate_restores (env : CrateEnv) :
    ((publish_crate env).2).file = env.disk.file := by
  by_cases hcp : (run_command_pair env.cpOutcome).1 = false
  · simp [publish_crate, hcp]
  · cases hfix : env.fixAction with
    | error e => simp [publish_crate, hcp, hfix, Disk.cp, Disk.restoreMv]
    | ok txt => simp [publish_crate, hcp, hfix, Disk.cp, Disk.writeFile, Disk.restoreMv]

theorem publish_crateA_restores (published : List (String × String)) (name : String)
    (env : EnvA) : ((publish_crateA published name env).2.2).file = env.disk.file := by
  by_cases hd : env.dirExists = false
  · simp [publish_crateA, hd]
  · cases hm : env.manifest with
    | none => simp [publish_crateA, hd, hm]
    | some m =>
      by_cases hcp : env.cpRaises
      · simp [publish_crateA, hd, hm, hcp]
      · by_cases hok : ((run_command_pair env.publishOutcome).1 ||
            containsSub (lowerStr (run_command_pair env.publishOutcome).2) "already uploaded") = true
        · simp [publish_crateA, hd, hm, hcp, hok, Disk.cp, Disk.writeFile, Disk.restoreMv]
        · simp [publish_crateA, hd, hm, hcp, hok, Disk.cp, Disk.writeFile, Disk.restoreMv]

theorem publish_crate_no_exc {env : CrateEnv} {t : String} (h : env.fixAction = .ok t) :
    ∃ b, (publish_crate env).1 = .ok b := by
  by_cases hcp : (run_command_pair env.cpOutcome).1 = false
  · exact ⟨false, by simp [publish_crate, hcp]⟩
  · exact ⟨(run_command_pair env.publishOutcome).1, by simp [publish_crate, hcp, h]⟩

theorem runAutomated_append (reg : List (String × String)) (l1 l2 : List (String × EnvA)) :
    runAutomated reg (l1 ++ l2) = runAutomated (runAutomated reg l1) l2 := by
  induction l1 generalizing reg with
  | nil => rfl
  | cons p rest ih =>
    obtain ⟨n, e⟩ := p
    simp [runAutomated, ih]

theorem publish_crateA_reg_cases (published : List (String × String)) (name : String)
    (env : EnvA) :
    (publish_crateA published name env).2.1 = published ∨
    (publish_crateA published name env).2.1 =
      setA (stringReplace name "-" "_") "1.1.10" published := by
  by_cases hd : env.dirExists = false
  · left; simp [publish_crateA, hd]
  · cases hm : env.manifest with
    | none => left; simp [publish_crateA, hd, hm]
    | some m =>
      by_cases hcp : env.cpRaises
      · left; simp [publish_crateA, hd, hm, hcp]
      · by_cases hok : ((run_command_pair env.publishOutcome).1 ||
            containsSub (lowerStr (run_command_pair env.publishOutcome).2) "already uploaded") = true
        · right; simp [publish_crateA, hd, hm, hcp, hok]
        · left; simp [publish_crateA, hd, hm, hcp, hok]

theorem publish_crateA_true_reg {published : List (String × String)} {name : String}
    {env : EnvA} (h : (publish_crateA published name env).1 = true) :
    (publish_crateA published name env).2.1 =
      setA (stringReplace name "-" "_") "1.1.10" published := by
  by_cases hd : env.dirExists = false
  · simp [publish_crateA, hd] at h
  · cases hm : env.manifest with
    | none => simp [publish_crateA, hd, hm] at h
    | some m =>
      by_cases hcp : env.cpRaises
      · simp [publish_crateA, hd, hm, hcp] at h
      · by_cases hok : ((run_command_pair env.publishOutcome).1 ||
            containsSub (lowerStr (run_command_pair env.publishOutcome).2) "already uploaded") = true
        · simp [publish_crateA, hd, hm, hcp, hok]
        · simp [publish_crateA, hd, hm, hcp, hok] at h

theorem reg_persist (k : String) (l : List (String × EnvA)) :
    ∀ reg, alookup k reg = some "1.1.10" →
      alookup k (runAutomated reg l) = some "1.1.10" := by
  induction l with
  | nil => intro reg h; exact h
  | cons p rest ih =>
    intro reg h
    obtain ⟨n, e⟩ := p
    simp only [runAutomated]
    apply ih
    rcases publish_crateA_reg_cases reg n e with hc | hc
    · rw [hc]; exact h
    · rw [hc]
      by_cases hk : stringReplace n "-" "_" = k
      · subst hk; exact alookup_setA_self _ _ _
      · rw [alookup_setA_ne hk]; exact h

/-! ## Claim theorems. -/

/-- C1 (counterexample): the claim that after resolution every mandatory
feature set is a subset of the declared features fails on the structured
resolver.  The manifest c1cexManifest has an inherited dependency, yet
after fix_workspace_inheritance its reqwest entry, declared as an
explicit table without a features key, still has an empty feature list,
so the mandatory json feature is not among its declared features. -/
theorem c1_counterexample :
    hasInheritedDep c1cexManifest = true ∧
    featuresOfEntry (fix_workspace_inheritance c1cexManifest) "reqwest" = [] ∧
    ¬ "json" ∈ featuresOfEntry (fix_workspace_inheritance c1cexManifest) "reqwest" := by
  refine ⟨by decide, by decide, by decide⟩

/-- C1 (amended): for every manifest, after fix_workspace_inheritance
runs every dependency entry in the runtime, dev and build sections is
explicit (no workspace = true marker and no empty version placeholder
remains), and the mandatory feature invariants hold: the chrono and
nalgebra entries in the runtime and dev sections carry serde and
serde-serialize respectively, and a reqwest entry in any section either
carries json or is a table without any features key (the one shape the
resolver leaves without its mandatory feature). -/
theorem c1_amended (d : TomlData) :
    depsResolved (fix_workspace_inheritance d) ∧
    mandatoryFeatureState (fix_workspace_inheritance d) := by
  have h := dataFixed_fix d
  exact ⟨h.2.2.2.1, h.2.2.2.2⟩

/-- C2 (amended): in the improved and automated orchestrators the on
disk manifest after processing one package equals its content before
processing, on every modeled exit path: backup failure, an exception
raised during resolution, and publish success, rejection or exception
all restore or never touch the file. -/
theorem c2_amended :
    (∀ env : CrateEnv, ((publish_crate env).2).file = env.disk.file) ∧
    (∀ (published : List (String × String)) (name : String) (env : EnvA),
      ((publish_crateA published name env).2.2).file = env.disk.file) := by
  exact ⟨publish_crate_restores, publish_crateA_restores⟩

/-- C2 (counterexample): publish-all-hanzo-crates.py takes no backup and
edits the manifest in place, so after processing a package whose
manifest contains the thiserror pattern the on disk content differs from
the content before processing. -/
theorem c2_counterexample :
    (publish_crateC c2cexEnv).2 ≠ c2cexEnv.manifest := by decide

/-- C3 (counterexample): the improved orchestrator classifies by exit
status alone.  On a publish invocation that exits non zero while its
output contains the already uploaded marker, publish_crate returns
False (Failed), although the claim requires the outcome to be success
equivalent. -/
theorem c3_counterexample :
    (publish_crate c3cexEnv).1 = Except.ok false ∧
    c3cexEnv.publishOutcome = .completed 101 "error: crate version is already uploaded\n" "" ∧
    containsSub (lowerStr ("error: crate version is already uploaded\n" ++ ""))
      "already uploaded" = true := by
  refine ⟨by decide, rfl, by decide⟩

/-- C3 (amended): in the automated and publish-all orchestrators a
publish invocation is classified success equivalent if and only if its
exit status is zero or the combined diagnostic output contains the
already uploaded marker case insensitively. -/
theorem c3_amended :
    (∀ (published : List (String × String)) (name : String) (env : EnvA)
      (m : ManifestA) (rc : Int) (out err : String),
      env.dirExists = true → env.manifest = some m → env.cpRaises = false →
      env.publishOutcome = .completed rc out err →
      ((publish_crateA published name env).1 = true ↔
        (rc = 0 ∨ containsSub (lowerStr (out ++ err)) "already uploaded" = true))) ∧
    (∀ (env : EnvC) (rc : Int) (out err : String),
      env.dirExists = true → env.publishOutcome = .completed rc out err →
      ((publish_crateC env).1 = true ↔
        (rc = 0 ∨ containsSub (lowerStr (out ++ err)) "already uploaded" = true))) := by
  constructor
  · intro published name env m rc out err hd hm hcp hp
    have hbe : (publish_crateA published name env).1 =
        (decide (rc = 0) || containsSub (lowerStr (out ++ err)) "already uploaded") := by
      by_cases hb : (decide (rc = 0) || containsSub (lowerStr (out ++ err)) "already uploaded") = true
      · simp [publish_crateA, hd, hm, hcp, hp, run_command_pair, run_command, hb]
      · simp only [Bool.not_eq_true] at hb
        simp [publish_crateA, hd, hm, hcp, hp, run_command_pair, run_command, hb]
    rw [hbe]
    simp [Bool.or_eq_true, decide_eq_true_eq]
  · intro env rc out err hd hp
    have hbe : (publish_crateC env).1 =
        (decide (rc = 0) || containsSub (lowerStr (out ++ err)) "already uploaded") := by
      simp [publish_crateC, hd, hp, run_command_pair, run_command]
    rw [hbe]
    simp [Bool.or_eq_true, decide_eq_true_eq]

/-- C3 (witness): the amended classification evaluated at a concrete non
zero exit whose output reports already uploaded, in both variants. -/
theorem c3_witness :
    ((publish_crateA PUBLISHED_HANZO "hanzo-db" c3witEnvA).1 = true ↔
      ((101 : Int) = 0 ∨ containsSub (lowerStr ("error: crate version is already uploaded\n" ++ ""))
        "already uploaded" = true)) ∧
    ((publish_crateC c3witEnvC).1 = true ↔
      ((101 : Int) = 0 ∨ containsSub (lowerStr ("error: crate version is Already Uploaded\n" ++ ""))
        "already uploaded" = true)) := by
  exact ⟨c3_amended.1 PUBLISHED_HANZO "hanzo-db" c3witEnvA { deps := [] } 101 _ _ rfl rfl rfl rfl,
    c3_amended.2 c3witEnvC 101 _ _ rfl rfl⟩

/-- C4 (counterexample): in publish-all-hanzo-crates.py a failure
followed by an operator reply other than y breaks the loop: with two
crates where the first publish is rejected, the second crate is never
attempted and the final report holds one entry instead of two. -/
theorem c4_counterexample :
    mainAllCrates c4cexList = ([], ["hanzo-db"]) ∧
    ¬ "hanzo-fs" ∈ ((mainAllCrates c4cexList).1 ++ (mainAllCrates c4cexList).2) ∧
    (mainAllCrates c4cexList).1.length + (mainAllCrates c4cexList).2.length ≠
      c4cexList.length := by
  refine ⟨by decide, by decide, by decide⟩

/-- C4 (amended): the improved orchestrator, provided no manifest parse
exception occurs, attempts the publishable packages strictly in the
supplied order; a missing directory, failed backup or rejected publish
at one position never prevents later packages from being attempted, and
the final report lists each input package exactly once (the succeeded
and failed lists are order preserving and together are a permutation of
the input order). -/
theorem c4_amended (crates : List (String × CrateEnv))
    (h : ∀ p ∈ crates, ∃ t, p.2.fixAction = Except.ok t) :
    ∃ attempted s f, mainImproved crates = .ok (attempted, s, f) ∧
      attempted = (crates.filter (fun p => p.2.dirExists)).map Prod.fst ∧
      s.Sublist (crates.map Prod.fst) ∧ f.Sublist (crates.map Prod.fst) ∧
      (s ++ f).Perm (crates.map Prod.fst) := by
  induction crates with
  | nil => exact ⟨[], [], [], rfl, rfl, List.Sublist.slnil, List.Sublist.slnil, List.Perm.nil⟩
  | cons p rest ih =>
    obtain ⟨name, env⟩ := p
    obtain ⟨attempted, s, f, hmain, hatt, hs, hf, hperm⟩ :=
      ih (fun q hq => h q (List.mem_cons_of_mem _ hq))
    by_cases hd : env.dirExists = false
    · refine ⟨attempted, s, name :: f, ?_, ?_, ?_, ?_, ?_⟩
      · simp [mainImproved, hd, hmain, Except.map]
      · simp [List.filter_cons, hd, hatt]
      · exact hs.cons _
      · exact hf.cons₂ _
      · exact List.perm_middle.trans (hperm.cons name)
    · have hd' : env.dirExists = true := by
        revert hd; cases env.dirExists <;> simp
      obtain ⟨t, hfix⟩ := h (name, env) (List.mem_cons_self _ _)
      obtain ⟨b, hb⟩ := publish_crate_no_exc hfix
      cases b
      · refine ⟨name :: attempted, s, name :: f, ?_, ?_, ?_, ?_, ?_⟩
        · simp [mainImproved, hd', hb, hmain, Except.map]
        · simp [List.filter_cons, hd', hatt]
        · exact hs.cons _
        · exact hf.cons₂ _
        · exact List.perm_middle.trans (hperm.cons name)
      · refine ⟨name :: attempted, name :: s, f, ?_, ?_, ?_, ?_, ?_⟩
        · simp [mainImproved, hd', hb, hmain, Except.map]
        · simp [List.filter_cons, hd', hatt]
        · exact hs.cons₂ _
        · exact hf.cons _
        · exact hperm.cons name

/-- C4 (witness): the amended statement evaluated on a concrete three
crate order with one success, one missing directory and one rejection. -/
theorem c4_witness :
    ∃ attempted s f, mainImproved c4witList = .ok (attempted, s, f) ∧
      attempted = (c4witList.filter (fun p => p.2.dirExists)).map Prod.fst ∧
      s.Sublist (c4witList.map Prod.fst) ∧ f.Sublist (c4witList.map Prod.fst) ∧
      (s ++ f).Perm (c4witList.map Prod.fst) := by
  refine c4_amended c4witList ?_
  intro p hp
  fin_cases hp <;> exact ⟨_, rfl⟩

/-- C5 (confirmed): in the automated orchestrator the live registry,
seeded with PUBLISHED_HANZO, is appended to whenever a publish in the
run succeeds, and dependency resolution substitutes the recorded
version: if the crate c was published successfully at some point of the
run, then at every later point the underscored name of c is in the
registry with its recorded version 1.1.10, an inherited dependency on c
resolves to the explicit declaration carrying exactly that recorded
version, and the resolved manifest of a later crate contains that
explicit declaration. -/
theorem c5_registry (reg0 : List (String × String)) (pre mid : List (String × EnvA))
    (c : String) (envc : EnvA)
    (hsucc : (publish_crateA (runAutomated reg0 pre) c envc).1 = true) :
    alookup (stringReplace c "-" "_") (runAutomated reg0 (pre ++ (c, envc) :: mid)) =
      some "1.1.10" ∧
    (∀ rest : String,
      replace_dep (runAutomated reg0 (pre ++ (c, envc) :: mid)) c (.inherited rest) =
        mkExplicitA c "1.1.10" ∧
      declVersionA (replace_dep (runAutomated reg0 (pre ++ (c, envc) :: mid)) c
        (.inherited rest)) = some "1.1.10" ∧
      isInheritedA (replace_dep (runAutomated reg0 (pre ++ (c, envc) :: mid)) c
        (.inherited rest)) = false) ∧
    (∀ (m : ManifestA) (r : String), (c, DepDeclA.inherited r) ∈ m.deps →
      (c, mkExplicitA c "1.1.10") ∈
        (replace_workspace_deps (runAutomated reg0 (pre ++ (c, envc) :: mid)) m).deps) := by
  have hkey : alookup (stringReplace c "-" "_") (runAutomated reg0 (pre ++ (c, envc) :: mid)) =
      some "1.1.10" := by
    rw [runAutomated_append]
    show alookup _ (runAutomated (publish_crateA (runAutomated reg0 pre) c envc).2.1 mid) = _
    apply reg_persist
    rw [publish_crateA_true_reg hsucc]
    exact alookup_setA_self _ _ _
  have hrepl : ∀ rest : String,
      replace_dep (runAutomated reg0 (pre ++ (c, envc) :: mid)) c (.inherited rest) =
        mkExplicitA c "1.1.10" := by
    intro rest
    simp [replace_dep, hkey]
  refine ⟨hkey, ?_, ?_⟩
  · intro rest
    refine ⟨hrepl rest, ?_, ?_⟩
    · rw [hrepl rest]
      unfold mkExplicitA
      cases alookup c CRYPTO_FEATURES <;> rfl
    · rw [hrepl rest]
      unfold mkExplicitA
      cases alookup c CRYPTO_FEATURES <;> rfl
  · intro m r hm
    simp only [replace_workspace_deps, List.mem_map]
    exact ⟨(c, .inherited r), hm, by simp [hrepl r]⟩

/-- C5 (witness): a run with one crate whose publish succeeds, then an
inherited dependency on it resolves to the recorded version 1.1.10. -/
theorem c5_witness :
    alookup (stringReplace "hanzo-db" "-" "_")
      (runAutomated PUBLISHED_HANZO ([] ++ ("hanzo-db", c5witEnv) :: [])) = some "1.1.10" ∧
    (∀ rest : String,
      replace_dep (runAutomated PUBLISHED_HANZO ([] ++ ("hanzo-db", c5witEnv) :: []))
        "hanzo-db" (.inherited rest) = mkExplicitA "hanzo-db" "1.1.10" ∧
      declVersionA (replace_dep (runAutomated PUBLISHED_HANZO
        ([] ++ ("hanzo-db", c5witEnv) :: [])) "hanzo-db" (.inherited rest)) = some "1.1.10" ∧
      isInheritedA (replace_dep (runAutomated PUBLISHED_HANZO
        ([] ++ ("hanzo-db", c5witEnv) :: [])) "hanzo-db" (.inherited rest)) = false) ∧
    (∀ (m : ManifestA) (r : String), ("hanzo-db", DepDeclA.inherited r) ∈ m.deps →
      ("hanzo-db", mkExplicitA "hanzo-db" "1.1.10") ∈
        (replace_workspace_deps (runAutomated PUBLISHED_HANZO
          ([] ++ ("hanzo-db", c5witEnv) :: [])) m).deps) := by
  exact c5_registry PUBLISHED_HANZO [] [] "hanzo-db" c5witEnv (by decide)

/-- C6 (counterexample): replace_dep of the automated variant leaves an
unknown inherited declaration unchanged instead of substituting a
default version marker: left-pad is neither in the live registry nor in
WORKSPACE_DEPS and its declaration stays inherited. -/
theorem c6_counterexample :
    replace_dep PUBLISHED_HANZO "left-pad" (.inherited " ") = .inherited " " ∧
    isInheritedA (replace_dep PUBLISHED_HANZO "left-pad" (.inherited " ")) = true ∧
    alookup (stringReplace "left-pad" "-" "_") PUBLISHED_HANZO = none ∧
    alookup "left-pad" WORKSPACE_DEPS = none := by
  refine ⟨by decide, by decide, by decide, by decide⟩

/-- C6 (amended): both resolution paths of the structured resolver
rewrite an inherited dependency whose name is neither in
DEPENDENCY_VERSIONS nor in the hanzo_ sibling namespace to an explicit
declaration with the conservative default version 1.0, so an unknown
dependency never stays inherited there: the inline table path preserves
the original features while substituting, and the dotted key folding
produces a fresh explicit table which, for an unknown name, carries no
feature list (the original features of a dotted inherited entry are not
carried over). -/
theorem c6_amended (name : String) (t : DepTable)
    (h1 : alookup name DEPENDENCY_VERSIONS = none)
    (h2 : strStartsWith name "hanzo_" = false)
    (h3 : t.workspace = some true) :
    fixInlineDep name (.table t) =
      .table { workspace := none, version := some "1.0"
               features := if (t.features.getD []).isEmpty then none
                           else some (t.features.getD [])
               extra := [] } ∧
    dottedConvert name (.table t) =
      .table { workspace := none, version := some "1.0"
               features := none, extra := [] } := by
  have hc : name ≠ "chrono" := by rintro rfl; exact absurd h1 (by decide)
  have hr : name ≠ "reqwest" := by rintro rfl; exact absurd h1 (by decide)
  have hn : name ≠ "nalgebra" := by rintro rfl; exact absurd h1 (by decide)
  constructor
  · simp [fixInlineDep, h3, depLookupVersion, h1, h2, mandatoryAppend, hc, hr, hn]
  · simp [dottedConvert, h3, depLookupVersion, h1, h2, hc, hr, hn]

/-- C6 (witness): the amended statement evaluated at the unknown
dependency left-pad with an inherited bare table, for both the inline
path and the dotted folding path. -/
theorem c6_witness :
    (fixInlineDep "left-pad" (.table { workspace := some true, version := none
                                       features := none, extra := [] }) =
      .table { workspace := none, version := some "1.0"
               features := if ((none : Option (List String)).getD []).isEmpty then none
                           else some ((none : Option (List String)).getD [])
               extra := [] } ∧
    dottedConvert "left-pad" (.table { workspace := some true, version := none
                                       features := none, extra := [] }) =
      .table { workspace := none, version := some "1.0"
               features := none, extra := [] }) := by
  exact c6_amended "left-pad" _ (by decide) (by decide) rfl

/-- C7 (counterexample): resolving an inherited chrono declaration that
carries a declared feature and an optional sub field preserves and
unions the features but drops the optional sub field, so the claim that
other sub fields of the declaration are never removed is false. -/
theorem c7_counterexample :
    fixInlineDep "chrono" (.table c7cexTable) =
      .table { workspace := none, version := some "0.4"
               features := some ["clock", "serde"], extra := [] } ∧
    c7cexTable.extra = [("optional", "true")] := by
  exact ⟨by decide, rfl⟩

/-- C7 (amended): every feature present in the original declaration is
still present after resolution: the inline table replacement and each of
the per name feature fixing passes only ever add features, never remove
one. -/
theorem c7_amended :
    (∀ (n : String) (v : DepVal), featuresOf v ⊆ featuresOf (fixInlineDep n v)) ∧
    (∀ v : DepVal, featuresOf v ⊆ featuresOf (fixReqwestVal v)) ∧
    (∀ v : DepVal, featuresOf v ⊆ featuresOf (fixChronoVal v)) ∧
    (∀ v : DepVal, featuresOf v ⊆ featuresOf (fixNalgebraVal v)) := by
  have hmand : ∀ (n : String) (fs : List String), fs ⊆ mandatoryAppend n fs := by
    intro n fs
    unfold mandatoryAppend
    split_ifs <;> first
      | exact List.Subset.refl fs
      | exact List.subset_append_left _ _
  have hens : ∀ (dflt feat : String) (v : DepVal),
      featuresOf v ⊆ featuresOf (featEnsureVal dflt feat v) := by
    intro dflt feat v
    cases v with
    | str s => simp [featuresOf]
    | table t =>
      cases hf : t.features with
      | none => simp [featEnsureVal, hf, featuresOf]
      | some fs =>
        by_cases hj : feat ∈ fs
        · simp [featEnsureVal, hf, hj, featuresOf]
        · simp only [featEnsureVal, hf, if_neg hj, featuresOf, Option.getD_some]
          exact List.subset_append_left _ _
  refine ⟨?_, ?_, hens "0.4" "serde", hens "0.32" "serde-serialize"⟩
  · intro n v
    cases v with
    | str s =>
      by_cases hs : s = ""
      · simp [fixInlineDep, hs, featuresOf]
      · simp [fixInlineDep, hs, featuresOf]
    | table t =>
      by_cases ht : t.workspace = some true
      · have hfeat : featuresOf (fixInlineDep n (.table t)) =
            mandatoryAppend n (t.features.getD []) := by
          simp only [fixInlineDep, if_pos ht, featuresOf]
          by_cases he : (mandatoryAppend n (t.features.getD [])).isEmpty
          · rw [List.isEmpty_iff] at he
            simp [he]
          · simp [he]
        rw [hfeat]
        exact hmand n _
      · simp [fixInlineDep, ht, featuresOf]
  · intro v
    cases v with
    | str s => simp [fixReqwestVal, featuresOf]
    | table t =>
      cases hf : t.features with
      | none => simp [fixReqwestVal, hf, featuresOf]
      | some fs =>
        by_cases hj : "json" ∈ fs
        · simp [fixReqwestVal, hf, hj, featuresOf]
        · simp only [fixReqwestVal, hf, if_neg hj, featuresOf, Option.getD_some]
          exact List.subset_append_left _ _

/-- C8 (confirmed): resolution is idempotent: applying the structured
resolver transform twice yields the same manifest as applying it once,
for every manifest: the metadata pass overwrites nothing explicit, the
version substitutions do not re fire, and the mandatory feature union
adds no feature already present. -/
theorem c8_idempotent (d : TomlData) :
    fix_workspace_inheritance (fix_workspace_inheritance d) = fix_workspace_inheritance d :=
  fix_id (dataFixed_fix d)

/-- C9 (code bug evaluation): in the improved script a manifest that
fails to parse makes fix_workspace_inheritance raise inside the
try/finally of publish_crate, which has no except clause, and main has
no handler either: with a two crate order whose first manifest is
unparseable the whole run aborts with the propagated exception, the
second crate is never attempted, and no report is produced, instead of
recording one Failed entry and continuing. -/
theorem c9_eval :
    mainImproved c9cexList = Except.error "TomlDecodeError: invalid statement" := by
  decide

/-- C10 (confirmed): the command runner is total at the invocation
boundary: for every external outcome run_command returns a (success,
output) pair rather than propagating, and an exception raised while
spawning or running the command is converted into the failed pair
carrying the exception message. -/
theorem c10_total :
    (∀ o : CmdOutcome, ∃ p : Bool × String, run_command o = .ok p) ∧
    (∀ msg : String, run_command (.raised msg) = .ok (false, msg)) := by
  constructor
  · intro o
    cases o with
    | completed rc out err => exact ⟨_, rfl⟩
    | raised m => exact ⟨_, rfl⟩
  · intro msg
    rfl

end HanzoPub
